import Mathlib

/-!
Shallow embedding of the ic-llm repository core: the chunked-upload storage
module (`storage.rs`), the model-session / generation loop (`candle.rs`,
`model.rs`, `qwen3.rs`), and the stable-storage model-load path, together
with theorems settling the specification claims about them.

Bytes are modelled as `List Nat`, token-ids as `Nat`, the canister's
stable key/byte-blob registry as an association list, and the parallel
chunk map (`HashMap<u32, Vec<u8>>`) as a Mathlib `AList` keyed by `Nat`.
f32/f64 scalars that the code only compares against exact constants
(temperature, top_p, repeat_penalty) are modelled as `ℚ`.
-/

namespace ICLlm

abbrev Bytes := List Nat

/-- `HashMap<u32, Vec<u8>>` BUFFER_MAP of storage.rs, as a key-nodup
association list. -/
abbrev ChunkMap := AList (fun _ : Nat => Bytes)

/-- Upsert into the stable registry (`StableBTreeMap::insert`). -/
def regInsert (key : String) (data : Bytes) (m : List (String × Bytes)) :
    List (String × Bytes) :=
  (key, data) :: m.eraseP (fun p => p.1 == key)

/-- Lookup in the stable registry (`StableBTreeMap::get`). -/
def regLookup (key : String) (m : List (String × Bytes)) : Option Bytes :=
  (m.find? (fun p => p.1 == key)).map (·.2)

/-- The storage-relevant canister state: the sequential upload BUFFER, the
parallel-chunk BUFFER_MAP, and the durable REGISTRIES byte-blob store. -/
structure Storage where
  buffer : Bytes
  bufferMap : ChunkMap
  registries : List (String × Bytes)

def emptyStorage : Storage := { buffer := [], bufferMap := ∅, registries := [] }

/-- storage.rs `append_chunk`: extends the sequential buffer. -/
def append_chunk (chunk : Bytes) (st : Storage) : Storage :=
  { st with buffer := st.buffer ++ chunk }

/-- storage.rs `buffer_size`. -/
def buffer_size (st : Storage) : Nat := st.buffer.length

/-- storage.rs `clear_buffer`. -/
def clear_buffer (st : Storage) : Storage := { st with buffer := [] }

/-- storage.rs `append_parallel_chunk`: HashMap insert (replaces on
duplicate id). -/
def append_parallel_chunk (chunkId : Nat) (chunk : Bytes) (st : Storage) : Storage :=
  { st with bufferMap := st.bufferMap.insert chunkId chunk }

/-- storage.rs `parallel_chunk_count`. -/
def parallel_chunk_count (st : Storage) : Nat := st.bufferMap.keys.length

/-- storage.rs `parallel_chunk_ids`: keys, ascending. -/
def parallel_chunk_ids (st : Storage) : List Nat :=
  List.insertionSort (· ≤ ·) st.bufferMap.keys

/-- storage.rs `parallel_chunks_complete`: size equals `expected_count` and
every id in `[0, expected_count)` is present. -/
def parallel_chunks_complete (expectedCount : Nat) (st : Storage) : Bool :=
  if st.bufferMap.keys.length ≠ expectedCount then false
  else (List.range expectedCount).all (fun i => (st.bufferMap.lookup i).isSome)

/-- The sort-and-drain loop shared by `consolidate_parallel_chunks`:
iterate over the present ids in ascending order, accumulating the
concatenated bytes and the running total size. -/
def consolidateCollect (m : ChunkMap) : Bytes × Nat :=
  let sortedIds := List.insertionSort (· ≤ ·) m.keys
  sortedIds.foldl
    (fun acc i =>
      match m.lookup i with
      | some chunk => (acc.1 ++ chunk, acc.2 + chunk.length)
      | none => acc)
    ([], 0)

/-- storage.rs `consolidate_parallel_chunks`: on a non-empty map, drains
the chunks in ascending id order into one sequence; if the result is
empty it fails (clearing the map on the way); otherwise it replaces the
sequential buffer wholesale and returns the total byte count. -/
def consolidate_parallel_chunks (st : Storage) : Except String Nat × Storage :=
  if st.bufferMap.keys.isEmpty then
    (.error "No parallel chunks to consolidate", st)
  else
    let collected := consolidateCollect st.bufferMap
    let st := { st with bufferMap := ∅ }
    if collected.1.isEmpty then
      (.error "No parallel chunks to consolidate", st)
    else
      (.ok collected.2, { st with buffer := collected.1 })

/-- storage.rs `clear_parallel_chunks`. -/
def clear_parallel_chunks (st : Storage) : Storage := { st with bufferMap := ∅ }

/-- storage.rs `remove_parallel_chunk`. -/
def remove_parallel_chunk (chunkId : Nat) (st : Storage) : Bool × Storage :=
  ((st.bufferMap.lookup chunkId).isSome,
   { st with bufferMap := st.bufferMap.erase chunkId })

/-- storage.rs `save_to_stable`: `mem::take` drains the buffer first, then
fails if the drained data is empty, else upserts it into the registry. -/
def save_to_stable (key : String) (st : Storage) : Except String Unit × Storage :=
  let data := st.buffer
  let st := { st with buffer := [] }
  if data.isEmpty then
    (.error ("No data in buffer for key: " ++ key), st)
  else
    (.ok (), { st with registries := regInsert key data st.registries })

/-- The drain loop of `save_parallel_to_stable` (no size accumulator). -/
def saveParallelCollect (m : ChunkMap) : Bytes :=
  let sortedIds := List.insertionSort (· ≤ ·) m.keys
  sortedIds.foldl
    (fun acc i =>
      match m.lookup i with
      | some chunk => acc ++ chunk
      | none => acc)
    []

/-- storage.rs `save_parallel_to_stable`: consolidates the parallel chunks
in ascending id order straight into the registry, bypassing the
sequential buffer. -/
def save_parallel_to_stable (key : String) (st : Storage) : Except String Nat × Storage :=
  if st.bufferMap.keys.isEmpty then
    (.error ("No parallel chunks to save for key: " ++ key), st)
  else
    let consolidated := saveParallelCollect st.bufferMap
    let st := { st with bufferMap := ∅ }
    if consolidated.isEmpty then
      (.error ("No parallel chunks to save for key: " ++ key), st)
    else
      (.ok consolidated.length,
       { st with registries := regInsert key consolidated st.registries })

/-- storage.rs `load_from_stable`. -/
def load_from_stable (key : String) (st : Storage) : Except String Unit × Storage :=
  match regLookup key st.registries with
  | some data => (.ok (), { st with buffer := data })
  | none => (.error ("No data found in stable storage for key: " ++ key), st)

/-- storage.rs `get_data`: drains the buffer. -/
def get_data (st : Storage) : Bytes × Storage :=
  (st.buffer, { st with buffer := [] })

/-- storage.rs `get_stable_data`. -/
def get_stable_data (key : String) (st : Storage) : Except String Bytes :=
  match regLookup key st.registries with
  | some data => .ok data
  | none => .error ("No data found in stable storage for key: " ++ key)

/-- lib.rs `load_bytes_from_stable`. -/
def load_bytes_from_stable (key : String) (st : Storage) : Option Bytes :=
  regLookup key st.registries

/-!
## Model session and generation loop (candle.rs / model.rs)

The transformer forward pass, the tokenizer, the repeat-penalty kernel, the
stochastic part of the sampler and the instruction counter are the opaque
capabilities of the design; they are parameters (`GenCaps`) of the
embedding, with logits kept as an abstract type `L`. The key/value
attention cache owned by the weights is modelled logically by its
positional content: the concatenation of every token-id sequence fed to
`forward`, so its logical length is `cache.length`.
-/

/-- Modelled from the spec: the sampling-policy selector of the external
candle `LogitsProcessor` — "temperature-scaled softmax with optional
nucleus (top-p) truncation, or deterministic argmax if temperature is
disabled". -/
inductive Sampling where
  | argMax : Sampling
  | all : ℚ → Sampling
  | topP : ℚ → ℚ → Sampling
deriving DecidableEq

/-- Modelled from the spec: the external sampler state — a seeded RNG
(abstracted to a `Nat` state) plus the selected sampling policy. -/
structure LogitsProcessor where
  rng : Nat
  sampling : Sampling
deriving DecidableEq

/-- Modelled from the spec: `LogitsProcessor::new(seed, temperature, top_p)`
of the external candle crate — no temperature selects greedy argmax;
otherwise softmax sampling, nucleus-truncated when a top-p is given. -/
def LogitsProcessor.new (seed : Nat) (temperature : Option ℚ) (topP : Option ℚ) :
    LogitsProcessor :=
  let sampling :=
    match temperature with
    | none => Sampling.argMax
    | some t =>
      match topP with
      | none => Sampling.all t
      | some p => Sampling.topP p t
  { rng := seed, sampling := sampling }

/-- The opaque capabilities consumed by the generation loop: tokenizer
encode/decode, the forward pass (input token-ids, position offset,
current cache content ↦ final-position logits), the repeat-penalty
kernel, the deterministic argmax, the stochastic sampling draw, and the
host instruction counter (`performance_counter(0)`, indexed by how many
times it has been read during the call). -/
structure GenCaps (L : Type) where
  encode : String → Except String (List Nat)
  decode : Nat → Except String String
  forward : List Nat → Nat → List Nat → Except String L
  applyRepeatPenalty : L → ℚ → List Nat → Except String L
  argmax : L → Except String Nat
  draw : Sampling → Nat → L → Except String (Nat × Nat)
  perf : Nat → Nat

/-- The type of the stochastic draw capability. -/
abbrev DrawFn (L : Type) := Sampling → Nat → L → Except String (Nat × Nat)

/-- Modelled from the spec: `LogitsProcessor::sample` — argmax is
deterministic and leaves the RNG untouched; the stochastic policies
consume the RNG via the opaque draw capability. -/
def LogitsProcessor.sample {L : Type} (caps : GenCaps L) (lp : LogitsProcessor)
    (logits : L) : Except String (Nat × LogitsProcessor) :=
  match lp.sampling with
  | .argMax => do
    let t ← caps.argmax logits
    pure (t, lp)
  | s => do
    let (t, rng) ← caps.draw s lp.rng logits
    pure (t, { lp with rng := rng })

/-- The thread-local `QwenModel` session of candle.rs: logical attention
cache, token history, sampler, penalty configuration and EOS token. -/
structure QwenModel where
  cache : List Nat
  tokens : List Nat
  logitsProcessor : LogitsProcessor
  repeatPenalty : ℚ
  repeatLastN : Nat
  eosToken : Nat
deriving DecidableEq

/-- The repeat-penalty step shared by `process_tokens` and
`Model::process`: skipped when the strength equals 1, else applied over
the last `repeat_last_n` entries of the token history (computed before
the new token is pushed). -/
def penalize {L : Type} (caps : GenCaps L) (repeatPenalty : ℚ) (tokens : List Nat)
    (repeatLastN : Nat) (logits : L) : Except String L :=
  if repeatPenalty = 1 then pure logits
  else
    let startAt := tokens.length - repeatLastN
    let context := tokens.drop startAt
    (caps.applyRepeatPenalty logits repeatPenalty context).mapError
      (fun e => "Repeat penalty error: " ++ e)

/-- candle.rs `process_tokens`: forward at offset `tokens.len()` (the
cache grows by the input length), optional repeat penalty over the last
`repeat_last_n` history entries, sample, push the sampled id, decode it
to text. A decode failure is propagated as an error (the `?` operator in
the source). -/
def process_tokens {L : Type} (caps : GenCaps L) (model : QwenModel)
    (input : List Nat) : Except String (String × QwenModel) := do
  let offset := model.tokens.length
  let logits ← (caps.forward input offset model.cache).mapError
    (fun e => "Forward pass error: " ++ e)
  let model := { model with cache := model.cache ++ input }
  let logits ← penalize caps model.repeatPenalty model.tokens model.repeatLastN logits
  let (nextToken, lp) ← (model.logitsProcessor.sample caps logits).mapError
    (fun e => "Sampling error: " ++ e)
  let model := { model with tokens := model.tokens ++ [nextToken], logitsProcessor := lp }
  let tokenText ← (caps.decode nextToken).mapError (fun e => "Decode error: " ++ e)
  pure (tokenText, model)

/-- model.rs `Model::process`: identical to candle.rs `process_tokens`
except that a decode failure is caught and replaced by the empty
fragment. -/
def Model.process {L : Type} (caps : GenCaps L) (model : QwenModel)
    (input : List Nat) : Except String (String × QwenModel) := do
  let offset := model.tokens.length
  let logits ← (caps.forward input offset model.cache).mapError
    (fun e => "Forward pass error: " ++ e)
  let model := { model with cache := model.cache ++ input }
  let logits ← penalize caps model.repeatPenalty model.tokens model.repeatLastN logits
  let (nextToken, lp) ← (model.logitsProcessor.sample caps logits).mapError
    (fun e => "Sampling error: " ++ e)
  let model := { model with tokens := model.tokens ++ [nextToken], logitsProcessor := lp }
  let tokenText :=
    match caps.decode nextToken with
    | .ok token => token
    | .error _ => ""
  pure (tokenText, model)

/-- candle.rs `GenerationConfig` (f64/f32 scalars as ℚ). -/
structure GenerationConfig where
  temperature : ℚ
  topP : ℚ
  repeatPenalty : ℚ
  repeatLastN : Nat
  seed : Nat

/-- The `Default` impl: temperature 0.7, top_p 0.9, repeat-penalty 1.1,
window 64, seed 42. -/
def GenerationConfig.default : GenerationConfig :=
  { temperature := mkRat 7 10, topP := mkRat 9 10, repeatPenalty := mkRat 11 10,
    repeatLastN := 64, seed := 42 }

structure InferenceRequest where
  prompt : String
  config : Option GenerationConfig

structure InferenceResponse where
  generatedText : String
  tokensGenerated : Nat
  instructionsUsed : Nat
  success : Bool
  error : Option String
deriving DecidableEq

/-- The instruction-limit ceiling of candle.rs (30_000_000_000). -/
def instructionCeiling : Nat := 30000000000

/-- The `for _ in 0..max_tokens` decode loop of `internal_generate`:
check EOS on the last history token, then sample the instruction counter
against the hard ceiling (a soft stop), then run one step on the single
most recent token and append its text fragment. `fuel` is the remaining
iteration count, `perfIdx` the number of counter reads made so far in
this call. -/
def decode_loop {L : Type} (caps : GenCaps L) (startInstructions : Nat) :
    Nat → Nat → QwenModel → String → Except String (String × QwenModel × Nat)
  | 0, perfIdx, model, acc => pure (acc, model, perfIdx)
  | fuel + 1, perfIdx, model, acc =>
    if model.tokens.getLast? = some model.eosToken then
      pure (acc, model, perfIdx)
    else
      let instructionsSoFar := caps.perf perfIdx - startInstructions
      if instructionCeiling < instructionsSoFar then
        pure (acc, model, perfIdx + 1)
      else
        match model.tokens.getLast? with
        | none => throw "panic: unwrap on empty token history"
        | some lastToken => do
          let (tokenText, model) ← process_tokens caps model [lastToken]
          decode_loop caps startInstructions fuel (perfIdx + 1) model (acc ++ tokenText)

/-- candle.rs `internal_generate`: read the instruction counter, take the
config (or defaults), clear the token history (the kv-cache clear is
commented out in the source, so the cache is untouched), re-seed the
sampler, tokenize the prompt, prime with one step over the whole prompt,
then run the decode loop (max 50 tokens), and report success with the
token-history length as `tokens_generated`. -/
def internal_generate {L : Type} (caps : GenCaps L) (modelOpt : Option QwenModel)
    (request : InferenceRequest) : Except String (InferenceResponse × QwenModel) := do
  let startInstructions := caps.perf 0
  let config := request.config.getD GenerationConfig.default
  match modelOpt with
  | none => throw "Model not initialized. Call setup_model first."
  | some model =>
    let model := { model with tokens := [] }
    let temp := if config.temperature ≤ 0 then none else some config.temperature
    let topP := if config.topP ≤ 0 ∨ 1 ≤ config.topP then none else some config.topP
    let model := { model with
      logitsProcessor := LogitsProcessor.new config.seed temp topP,
      repeatPenalty := config.repeatPenalty,
      repeatLastN := config.repeatLastN }
    let tokens ← (caps.encode request.prompt).mapError
      (fun e => "Tokenization error: " ++ e)
    let (firstToken, model) ← process_tokens caps model tokens
    let (generatedText, model, perfIdx) ←
      decode_loop caps startInstructions 50 1 model firstToken
    let instructionsUsed := caps.perf perfIdx - startInstructions
    pure ({ generatedText := generatedText,
            tokensGenerated := model.tokens.length,
            instructionsUsed := instructionsUsed,
            success := true,
            error := none }, model)

/-- candle.rs `generate` endpoint: wraps `internal_generate`, converting
an error into a `success == false` response carrying the message. -/
def generate {L : Type} (caps : GenCaps L) (modelOpt : Option QwenModel)
    (request : InferenceRequest) : InferenceResponse :=
  match internal_generate caps modelOpt request with
  | .ok (response, _) => response
  | .error e =>
    { generatedText := "", tokensGenerated := 0, instructionsUsed := 0,
      success := false, error := some e }

inductive EmptyResult where
  | ok : EmptyResult
  | err : String → EmptyResult
deriving DecidableEq

/-- candle.rs `reset_generation`: clears the token history; the kv-cache
clear is commented out in the source, so the cache field is untouched. -/
def reset_generation (modelOpt : Option QwenModel) :
    EmptyResult × Option QwenModel :=
  match modelOpt with
  | some model => (.ok, some { model with tokens := [] })
  | none => (.err "Model not initialized", none)

structure ModelInfo where
  loaded : Bool
  currentTokens : Nat
deriving DecidableEq

/-- candle.rs `get_model_info`. -/
def get_model_info (modelOpt : Option QwenModel) : ModelInfo :=
  match modelOpt with
  | some model => { loaded := true, currentTokens := model.tokens.length }
  | none => { loaded := false, currentTokens := 0 }

/-- model.rs `Model::reset`: clears the token history AND the kv cache. -/
def Model.reset (model : QwenModel) : QwenModel :=
  { model with tokens := [], cache := [] }

/-- The stable-storage reads at the head of candle.rs
`internal_setup_model` (lines 38–52): fetch `model_weights` and
`tokenizer`, each failing with the error message written in the source
when absent; the rest of the load (tokenizer decode, GGUF parse) is the
opaque load capability and is not needed by the claims. -/
def internal_setup_model_fetch (st : Storage) : Except String (Bytes × Bytes) := do
  let weights ←
    match load_bytes_from_stable "model_weights" st with
    | some bytes => pure bytes
    | none => throw "Tokenizer not found in stable storage"
  let tokenizerBytes ←
    match load_bytes_from_stable "tokenizer" st with
    | some bytes => pure bytes
    | none => throw "Tokenizer not found in stable storage"
  pure (weights, tokenizerBytes)

/-!
## Concrete instantiations used by the theorems

`obsCaps` instantiates the opaque capabilities over `L := Nat` so that the
forward pass echoes the position offset it received as its "logits" and
both sampling policies echo those logits back as the sampled token-id:
a run against `obsCaps` records, in the token history itself, the offsets
that `forward` was invoked with.
-/

/-- Observer capabilities: `forward` returns its offset argument as the
logits and both sampling paths return the logits as the token, so the
sampled token-id equals the offset `forward` was invoked at. The RNG is
passed through unchanged and the instruction counter always reads 0. -/
def obsCaps : GenCaps Nat :=
  { encode := fun _ => .ok [],
    decode := fun _ => .ok "",
    forward := fun _ offset _ => .ok offset,
    applyRepeatPenalty := fun l _ _ => .ok l,
    argmax := fun l => .ok l,
    draw := fun _ rng l => .ok (l, rng),
    perf := fun _ => 0 }

/-- `obsCaps` with a tokenizer whose single-token decode always fails. -/
def badDecodeCaps : GenCaps Nat :=
  { obsCaps with decode := fun _ => .error "boom" }

/-- `obsCaps` with an instruction counter that jumps far beyond the hard
ceiling right after the initial read. -/
def overBudgetCaps : GenCaps Nat :=
  { obsCaps with perf := fun i => if i = 0 then 0 else 40000000000 }

/-- A session that has primed and decoded: three cache positions, one
history token. -/
def c1Session : QwenModel :=
  { cache := [1, 2, 3], tokens := [5],
    logitsProcessor := { rng := 42, sampling := .argMax },
    repeatPenalty := 1, repeatLastN := 64, eosToken := 0 }

/-- A storage state holding one zero-length parallel chunk (id 0) plus a
non-empty sequential buffer. -/
def c3State : Storage :=
  { buffer := [7], bufferMap := (∅ : ChunkMap).insert 0 [], registries := [] }

/-- A fresh session mid-generation: one cache position, one history
token. -/
def c6Session : QwenModel :=
  { cache := [2], tokens := [7],
    logitsProcessor := { rng := 0, sampling := .argMax },
    repeatPenalty := 1, repeatLastN := 64, eosToken := 0 }

/-- A freshly loaded session (no history, no cache). -/
def freshSession : QwenModel :=
  { cache := [], tokens := [],
    logitsProcessor := { rng := 0, sampling := .argMax },
    repeatPenalty := 1, repeatLastN := 64, eosToken := 99 }

/-- A purely greedy generation config: temperature 0 (argmax), nucleus
disabled, repeat penalty disabled. -/
def greedyConfig : GenerationConfig :=
  { temperature := 0, topP := 0, repeatPenalty := 1, repeatLastN := 64, seed := 7 }

def greedyRequest : InferenceRequest := { prompt := "x", config := some greedyConfig }

/-- A freshly loaded session whose EOS token is 0, so that the first
sampled observer token (offset 0) immediately terminates the loop. -/
def eosSession : QwenModel :=
  { cache := [], tokens := [],
    logitsProcessor := { rng := 0, sampling := .argMax },
    repeatPenalty := 1, repeatLastN := 64, eosToken := 0 }

/-- The last-write-wins content of a sequence of parallel-chunk appends:
the value of the most recent append with the given id, if any. -/
def writes (ins : List (Nat × Bytes)) (i : Nat) : Option Bytes :=
  ins.foldl (fun acc p => if p.1 = i then some p.2 else acc) none

/-- Replay a sequence of (id, bytes) parallel appends against a storage
state. -/
def apply_parallel_appends (ins : List (Nat × Bytes)) (st : Storage) : Storage :=
  ins.foldl (fun s p => append_parallel_chunk p.1 p.2 s) st

/-- The same appends at the chunk-map level. -/
def insertAllChunks (ins : List (Nat × Bytes)) (m : ChunkMap) : ChunkMap :=
  ins.foldl (fun m p => m.insert p.1 p.2) m

/-- Written from the spec (refinement target): the chunks' bytes
concatenated in ascending chunk-id order, i.e. the result of appending
chunk 0, then chunk 1, …, then chunk n−1 sequentially. -/
def id_order_concat (n : Nat) (chunk : Nat → Bytes) : Bytes :=
  ((List.range n).map chunk).flatten

/-- The insertion sequence of the C2 witness: chunk 1 sent before
chunk 0. -/
def c2Inserts : List (Nat × Bytes) := [(1, [20]), (0, [10, 11])]

/-- The chunk contents of the C2 witness, as a function of the id. -/
def c2Chunk : Nat → Bytes := fun i => if i = 0 then [10, 11] else [20]

/-- A registry holding only the tokenizer blob: the weights key is the
missing artifact. -/
def c8Store : Storage :=
  { buffer := [], bufferMap := ∅, registries := [("tokenizer", [1])] }

/-!
## Helper lemmas
-/

theorem regLookup_regInsert (key : String) (v : Bytes) (m : List (String × Bytes)) :
    regLookup key (regInsert key v m) = some v := by
  simp [regLookup, regInsert, List.find?_cons_of_pos]

theorem exceptBind_ok {α β : Type} {a : Except String α} {f : α → Except String β}
    {v : β} (h : a >>= f = .ok v) : ∃ w, a = .ok w ∧ f w = .ok v := by
  cases a with
  | error e => exact absurd h (by simp [Bind.bind, Except.bind, Pure.pure, Except.pure])
  | ok w => exact ⟨w, rfl, by simpa [Bind.bind, Except.bind, Pure.pure, Except.pure] using h⟩

/-!
## C1 — attention-cache length vs token-history length
-/

/-- **C1.** The spec requires that the attention-cache logical length
always equal the token-history length and that `resetGeneration()` reset
both to 0. The code's `reset_generation` clears only the token history —
the kv-cache clear is commented out — so on the session `c1Session`
(cache length 3) the call succeeds, `getModelInfo().currentTokens` is 0,
but the cache logical length stays 3: the invariant is violated. -/
theorem reset_generation_keeps_stale_cache :
    (∀ m : QwenModel, reset_generation (some m) = (.ok, some { m with tokens := [] })) ∧
    (reset_generation (some c1Session)).1 = EmptyResult.ok ∧
    (get_model_info (reset_generation (some c1Session)).2).currentTokens = 0 ∧
    (∃ m', (reset_generation (some c1Session)).2 = some m' ∧ m'.cache.length = 3) :=
  ⟨fun _ => rfl, rfl, rfl, ⟨{ c1Session with tokens := [] }, rfl, rfl⟩⟩

/-!
## C8 — model-load errors for missing artifacts
-/

/-- **C8.** The claim says a missing `model_weights` key fails with its
own error identifying the weights artifact. In the code the weights
branch reuses the tokenizer message: on `c8Store` (tokenizer present,
weights absent) the load fails with "Tokenizer not found in stable
storage" — the same error an absent tokenizer produces — so the message
misidentifies the missing artifact. -/
theorem setup_model_missing_weights_wrong_message :
    load_bytes_from_stable "model_weights" c8Store = none ∧
    load_bytes_from_stable "tokenizer" c8Store = some [1] ∧
    internal_setup_model_fetch c8Store = .error "Tokenizer not found in stable storage" ∧
    internal_setup_model_fetch emptyStorage = .error "Tokenizer not found in stable storage" :=
  ⟨rfl, rfl, rfl, rfl⟩

/-!
## C5 — commit/load round trip
-/

/-- **C5.** For every non-empty staged buffer, `save_to_stable key`
succeeds, moves the bytes into the registry (the buffer is drained to
empty), and `get_stable_data key` then returns exactly those bytes; on an
empty buffer it fails with the empty-buffer error and the state is
unchanged. -/
theorem save_then_load_roundtrip (st : Storage) (key : String) :
    (st.buffer ≠ [] →
       save_to_stable key st =
         (.ok (), { st with buffer := [],
                            registries := regInsert key st.buffer st.registries }) ∧
       get_stable_data key (save_to_stable key st).2 = .ok st.buffer) ∧
    (st.buffer = [] →
       save_to_stable key st = (.error ("No data in buffer for key: " ++ key), st)) := by
  constructor
  · intro h
    have hb : st.buffer.isEmpty = false := by
      cases hbuf : st.buffer with
      | nil => exact absurd hbuf h
      | cons a l => rfl
    refine ⟨by simp [save_to_stable, hb], ?_⟩
    simp [save_to_stable, hb, get_stable_data, regLookup_regInsert]
  · intro h
    cases st with
    | mk b bm r => simp_all [save_to_stable]

/-- Witness for C5 at a concrete state: buffer `[9, 8]`, key "k". -/
theorem save_then_load_roundtrip_witness :
    (save_to_stable "k" { emptyStorage with buffer := [9, 8] } =
       (.ok (), { emptyStorage with
                    buffer := [],
                    registries := regInsert "k" [9, 8] [] }) ∧
     get_stable_data "k" (save_to_stable "k" { emptyStorage with buffer := [9, 8] }).2
       = .ok [9, 8]) ∧
    save_to_stable "q" emptyStorage =
      (.error ("No data in buffer for key: " ++ "q"), emptyStorage) :=
  ⟨(save_then_load_roundtrip { emptyStorage with buffer := [9, 8] } "k").1 (by decide),
   (save_then_load_roundtrip emptyStorage "q").2 rfl⟩

/-!
## C3 counterexample — a failing consolidation that mutates its input
-/

/-- **C3 counterexample.** On `c3State` — a non-empty ChunkMap holding a
single zero-length chunk — consolidation fails with the EmptyUpload
error, yet the ChunkMap is drained by the failing call (chunk 0 present
before, gone after), contradicting "whenever they fail they leave all
inputs unchanged". The sequential buffer is indeed untouched. -/
theorem consolidate_failure_drains_chunkmap :
    (consolidate_parallel_chunks c3State).1 = .error "No parallel chunks to consolidate" ∧
    c3State.bufferMap.lookup 0 = some [] ∧
    (consolidate_parallel_chunks c3State).2.bufferMap.lookup 0 = none ∧
    (consolidate_parallel_chunks c3State).2.buffer = c3State.buffer :=
  ⟨rfl, rfl, rfl, rfl⟩

/-!
## C2 counterexample — the all-zero-length edge case
-/

/-- **C2 counterexample.** For N = 1 with the single chunk 0 being the
zero-length byte sequence, the claim demands that consolidation succeed
and return total byte count 0; instead the call fails with the
EmptyUpload error. -/
theorem consolidate_zero_length_chunk_errors :
    (consolidate_parallel_chunks (append_parallel_chunk 0 [] emptyStorage)).1
      = .error "No parallel chunks to consolidate" ∧
    (consolidate_parallel_chunks (append_parallel_chunk 0 [] emptyStorage)).1
      ≠ .ok (id_order_concat 1 (fun _ => [])).length := by
  refine ⟨rfl, ?_⟩
  intro h
  exact Except.noConfusion
    ((rfl :
      (consolidate_parallel_chunks (append_parallel_chunk 0 [] emptyStorage)).1
        = Except.error "No parallel chunks to consolidate").symm.trans h)

/-!
## C6 — the decode step's forward offset
-/

/-- Against the observer capabilities, one step appends to the token
history exactly the offset that `forward` was invoked at, and that offset
is the token-history length at the moment of the call (not length − 1):
the cache grows by exactly the input fed. -/
theorem process_tokens_obs (m : QwenModel) (input : List Nat) :
    process_tokens obsCaps m input =
      .ok ("", { m with
                   cache := m.cache ++ input,
                   tokens := m.tokens ++ [m.tokens.length] }) := by
  rcases m with ⟨c, t, ⟨r, s⟩, rp, rl, e⟩
  cases s <;> by_cases hrp : rp = 1 <;>
    simp [process_tokens, penalize, LogitsProcessor.sample, obsCaps, hrp, Except.mapError,
          Bind.bind, Except.bind, Pure.pure, Except.pure]

/-- **C6 (amended).** In every decoding iteration the step takes the
single most recent token-id of the history as its input sequence (the
cache grows by exactly that one token), and the position offset passed
to `forward` equals the *current* token-history length — equivalently
`len(tokenHistory) − 1` only after the sampled token has been appended,
not at the moment of the call as the claim stated. Observed via
`obsCaps`, whose sampled token records the offset `forward` received. -/
theorem decode_step_feeds_last_token_at_offset_len (m : QwenModel) (t fuel perfIdx : Nat)
    (acc : String) (hlast : m.tokens.getLast? = some t) (hne : t ≠ m.eosToken) :
    decode_loop obsCaps 0 (fuel + 1) perfIdx m acc =
      decode_loop obsCaps 0 fuel (perfIdx + 1)
        { m with
            cache := m.cache ++ [t],
            tokens := m.tokens ++ [m.tokens.length] } acc := by
  have heos : ¬ m.tokens.getLast? = some m.eosToken := by
    rw [hlast]; intro hcontra
    exact hne (Option.some.injEq .. ▸ hcontra)
  have hbud : ¬ instructionCeiling < obsCaps.perf perfIdx - 0 := by
    simp [obsCaps, instructionCeiling]
  conv_lhs => rw [decode_loop]
  simp only [if_neg heos, hbud, if_false, ite_false, hlast, process_tokens_obs,
             Bind.bind, Except.bind]
  simp
  intro h
  exact absurd h hne

/-- **C6 counterexample.** On `c6Session` (token history `[7]`, length 1)
one decode iteration appends token-id 1 — the offset `forward` actually
received — whereas the claim's offset `len(tokenHistory) − 1` is 0. -/
theorem decode_step_offset_counterexample :
    decode_loop obsCaps 0 1 1 c6Session "" =
      .ok ("", { c6Session with cache := [2, 7], tokens := [7, 1] }, 2) ∧
    c6Session.tokens.length - 1 = 0 ∧ (1 : Nat) ≠ 0 :=
  ⟨rfl, rfl, by decide⟩

/-- Witness for C6 (amended) at `c6Session`: the step feeds `[7]` and
appends offset 1 (= current history length). -/
theorem decode_step_offset_witness :
    decode_loop obsCaps 0 3 0 c6Session "w" =
      decode_loop obsCaps 0 2 1
        { c6Session with
            cache := c6Session.cache ++ [7],
            tokens := c6Session.tokens ++ [c6Session.tokens.length] } "w" :=
  decode_step_feeds_last_token_at_offset_len c6Session 7 2 0 "w" rfl (by decide)

/-!
## C7 — token-decode failure handling
-/

/-- **C7 (amended).** With a tokenizer whose single-token decode always
fails: the model.rs step (`Model::process`) is non-fatal — it substitutes
the empty fragment and succeeds — but the candle.rs step
(`process_tokens`) propagates the failure as an error. -/
theorem decode_failure_model_vs_candle (m : QwenModel) (input : List Nat) :
    Model.process badDecodeCaps m input =
      .ok ("", { m with
                   cache := m.cache ++ input,
                   tokens := m.tokens ++ [m.tokens.length] }) ∧
    process_tokens badDecodeCaps m input = .error "Decode error: boom" := by
  rcases m with ⟨c, t, ⟨r, s⟩, rp, rl, e⟩
  constructor <;>
    cases s <;> by_cases hrp : rp = 1 <;>
      simp [Model.process, process_tokens, penalize, LogitsProcessor.sample, badDecodeCaps,
            obsCaps, hrp, Except.mapError, Bind.bind, Except.bind, Pure.pure, Except.pure]

/-- **C7 counterexample.** In the candle.rs path the decode failure IS
surfaced to the caller: `generate` returns `success == false` with the
decode error message, contradicting "no error is ever surfaced to the
caller for a token-decode failure". -/
theorem generate_surfaces_decode_error :
    generate badDecodeCaps (some freshSession) greedyRequest =
      { generatedText := "", tokensGenerated := 0, instructionsUsed := 0,
        success := false, error := some "Decode error: boom" } :=
  rfl

/-!
## C9 counterexample — budget exhaustion with empty partial text
-/

/-- **C9 counterexample.** A run whose instruction counter exceeds the
hard ceiling at the first loop boundary stops early and reports
`success == true` — but the partial text is the empty string (the only
decoded fragment is empty), contradicting the claim's "non-empty partial
text". -/
theorem budget_exhausted_returns_empty_success :
    internal_generate overBudgetCaps (some freshSession) greedyRequest =
      .ok ({ generatedText := "", tokensGenerated := 1,
             instructionsUsed := 40000000000, success := true, error := none },
           { freshSession with
               tokens := [0],
               logitsProcessor := { rng := 7, sampling := .argMax } }) ∧
    instructionCeiling < overBudgetCaps.perf 1 - overBudgetCaps.perf 0 :=
  ⟨rfl, by decide⟩

/-!
## C4 — determinism of greedy (temperature ≤ 0) generation

Determinism is stated as a hyperproperty: with temperature ≤ 0 the run is
independent of the stochastic draw capability (the only source of
randomness), so two calls with identical prompt, config, weights/cache
and counter trace produce identical output.
-/

theorem mapError_ok {α : Type} {x : Except String α} {f : String → String} {v : α}
    (h : x.mapError f = .ok v) : x = .ok v := by
  cases x with
  | error e => simp [Except.mapError] at h
  | ok w => simpa [Except.mapError] using h

/-- Sampling never changes the selected policy, only the RNG state. -/
theorem sample_sampling_invariant {L : Type} (caps : GenCaps L) (lp : LogitsProcessor)
    (logits : L) (t : Nat) (lp' : LogitsProcessor)
    (h : lp.sample caps logits = .ok (t, lp')) : lp'.sampling = lp.sampling := by
  rcases lp with ⟨r, s⟩
  cases s with
  | argMax =>
    simp only [LogitsProcessor.sample] at h
    obtain ⟨w, -, h2⟩ := exceptBind_ok h
    simp only [Pure.pure, Except.pure, Except.ok.injEq, Prod.mk.injEq] at h2
    rw [← h2.2]
  | all temp =>
    simp only [LogitsProcessor.sample] at h
    obtain ⟨⟨w1, w2⟩, -, h2⟩ := exceptBind_ok h
    simp only [Pure.pure, Except.pure, Except.ok.injEq, Prod.mk.injEq] at h2
    rw [← h2.2]
  | topP p temp =>
    simp only [LogitsProcessor.sample] at h
    obtain ⟨⟨w1, w2⟩, -, h2⟩ := exceptBind_ok h
    simp only [Pure.pure, Except.pure, Except.ok.injEq, Prod.mk.injEq] at h2
    rw [← h2.2]

/-- With the argmax policy, sampling does not consult the draw
capability. -/
theorem sample_draw_congr {L : Type} (caps : GenCaps L) (d : DrawFn L)
    (lp : LogitsProcessor) (h : lp.sampling = .argMax) :
    ∀ logits : L, lp.sample { caps with draw := d } logits = lp.sample caps logits := by
  intro logits
  simp only [LogitsProcessor.sample, h]

/-- A successful step keeps the sampling policy of the session. -/
theorem process_tokens_sampling_invariant {L : Type} (caps : GenCaps L) (m : QwenModel)
    (input : List Nat) (s : String) (m' : QwenModel)
    (h : process_tokens caps m input = .ok (s, m')) :
    m'.logitsProcessor.sampling = m.logitsProcessor.sampling ∧ m'.eosToken = m.eosToken := by
  unfold process_tokens at h
  obtain ⟨lg, hlg, h⟩ := exceptBind_ok h
  obtain ⟨lg2, hlg2, h⟩ := exceptBind_ok h
  obtain ⟨⟨tok, lp⟩, hs, h⟩ := exceptBind_ok h
  obtain ⟨txt, htxt, h⟩ := exceptBind_ok h
  simp only [Pure.pure, Except.pure, Except.ok.injEq, Prod.mk.injEq] at h
  rw [← h.2]
  exact ⟨sample_sampling_invariant caps _ lg2 tok lp (mapError_ok hs), rfl⟩

/-- With the argmax policy, a step is independent of the draw
capability. -/
theorem process_tokens_draw_congr {L : Type} (caps : GenCaps L) (d : DrawFn L)
    (m : QwenModel) (h : m.logitsProcessor.sampling = .argMax) (input : List Nat) :
    process_tokens { caps with draw := d } m input = process_tokens caps m input := by
  unfold process_tokens penalize
  simp only [sample_draw_congr caps d m.logitsProcessor h]

/-- With the argmax policy, the whole decode loop is independent of the
draw capability. -/
theorem decode_loop_draw_congr {L : Type} (caps : GenCaps L) (d : DrawFn L)
    (startI : Nat) :
    ∀ (fuel perfIdx : Nat) (m : QwenModel) (acc : String),
      m.logitsProcessor.sampling = .argMax →
      decode_loop { caps with draw := d } startI fuel perfIdx m acc =
        decode_loop caps startI fuel perfIdx m acc := by
  intro fuel
  induction fuel with
  | zero => intro perfIdx m acc _; rfl
  | succ fuel ih =>
    intro perfIdx m acc h
    unfold decode_loop
    by_cases heos : m.tokens.getLast? = some m.eosToken
    · rw [if_pos heos, if_pos heos]
    · rw [if_neg heos, if_neg heos]
      by_cases hbud : instructionCeiling < caps.perf perfIdx - startI
      · rw [if_pos hbud, if_pos hbud]
      · rw [if_neg hbud, if_neg hbud]
        cases hlast : m.tokens.getLast? with
        | none => rfl
        | some lastToken =>
          dsimp only
          rw [process_tokens_draw_congr caps d m h]
          cases hres : process_tokens caps m [lastToken] with
          | error e => simp [Bind.bind, Except.bind]
          | ok res =>
            simp only [Bind.bind, Except.bind]
            exact ih (perfIdx + 1) res.2 _
              ((process_tokens_sampling_invariant caps m [lastToken] res.1 res.2
                  (by rw [← hres])).1.trans h)

/-- **C4.** A `generate` call with temperature ≤ 0 selects the argmax
policy and is then fully deterministic: the run is independent of the
stochastic draw capability (the only source of randomness), so two calls
with identical prompt, config (fixed seed), weights/cache state and
instruction-counter trace produce identical responses and identical
token sequences. -/
theorem generate_greedy_deterministic {L : Type} (caps : GenCaps L)
    (d₁ d₂ : DrawFn L) (modelOpt : Option QwenModel) (req : InferenceRequest)
    (cfg : GenerationConfig) (hcfg : req.config = some cfg)
    (htemp : cfg.temperature ≤ 0) :
    internal_generate { caps with draw := d₁ } modelOpt req =
      internal_generate { caps with draw := d₂ } modelOpt req := by
  unfold internal_generate
  cases modelOpt with
  | none => rfl
  | some m =>
    simp only [hcfg, Option.getD_some, if_pos htemp]
    cases henc : caps.encode req.prompt with
    | error e => simp [Bind.bind, Except.bind, Except.mapError]
    | ok tks =>
      simp only [Bind.bind, Except.bind, Except.mapError]
      rw [process_tokens_draw_congr caps d₁ _ rfl tks,
          process_tokens_draw_congr caps d₂ _ rfl tks]
      cases hres : process_tokens caps
          { m with
              tokens := [],
              logitsProcessor := LogitsProcessor.new cfg.seed none
                (if cfg.topP ≤ 0 ∨ 1 ≤ cfg.topP then none else some cfg.topP),
              repeatPenalty := cfg.repeatPenalty,
              repeatLastN := cfg.repeatLastN } tks with
      | error e => rfl
      | ok res =>
        dsimp only
        rw [decode_loop_draw_congr caps d₁ (caps.perf 0) 50 1 res.2 res.1
              ((process_tokens_sampling_invariant caps _ tks res.1 res.2
                  (by rw [← hres])).1),
            decode_loop_draw_congr caps d₂ (caps.perf 0) 50 1 res.2 res.1
              ((process_tokens_sampling_invariant caps _ tks res.1 res.2
                  (by rw [← hres])).1)]

/-- Witness for C4: two concrete runs over `obsCaps` with different draw
capabilities and temperature 0 coincide. -/
theorem generate_greedy_deterministic_witness :
    internal_generate { obsCaps with draw := fun _ rng l => .ok (l, rng) }
        (some freshSession) greedyRequest =
      internal_generate { obsCaps with draw := fun _ rng l => .ok (l + 1, rng + 1) }
        (some freshSession) greedyRequest :=
  generate_greedy_deterministic obsCaps _ _ (some freshSession) greedyRequest
    greedyConfig rfl (by decide)

/-!
## C9 — the budget check is a soft stop
-/

/-- **C9 (amended).** When the instruction counter sampled at a
loop-iteration boundary exceeds the hard ceiling (and EOS has not been
reached), the decode loop stops immediately, returning the partial
accumulated text unchanged — which may be empty when every decoded
fragment so far is empty — and every successful `internal_generate`
response reports `success == true` with no error. -/
theorem budget_exceeded_soft_stop {L : Type} (caps : GenCaps L)
    (startI fuel perfIdx : Nat) (m : QwenModel) (acc : String)
    (hne : ¬ m.tokens.getLast? = some m.eosToken)
    (hbudget : instructionCeiling < caps.perf perfIdx - startI) :
    decode_loop caps startI (fuel + 1) perfIdx m acc = .ok (acc, m, perfIdx + 1) ∧
    (∀ (modelOpt : Option QwenModel) (req : InferenceRequest)
       (resp : InferenceResponse) (m' : QwenModel),
       internal_generate caps modelOpt req = .ok (resp, m') →
       resp.success = true ∧ resp.error = none) := by
  constructor
  · conv_lhs => rw [decode_loop]
    simp only [if_neg hne, hbudget, if_true, ite_true]
    rfl
  · intro mo req resp m' h
    unfold internal_generate at h
    cases mo with
    | none => exact Except.noConfusion h
    | some m0 =>
      dsimp only at h
      obtain ⟨tks, henc, h⟩ := exceptBind_ok h
      obtain ⟨⟨ft, m1⟩, hpr, h⟩ := exceptBind_ok h
      dsimp only at h
      obtain ⟨⟨gt, m2, pi⟩, hdl, h⟩ := exceptBind_ok h
      dsimp only at h
      simp only [Pure.pure, Except.pure, Except.ok.injEq, Prod.mk.injEq] at h
      rw [← h.1]
      exact ⟨rfl, rfl⟩

/-- Witness for C9 at `c6Session` over `overBudgetCaps`: the loop with
budget exceeded at its first boundary returns the accumulator as-is. -/
theorem budget_soft_stop_witness :
    decode_loop overBudgetCaps 0 50 1 c6Session "w" = .ok ("w", c6Session, 2) :=
  (budget_exceeded_soft_stop overBudgetCaps 0 49 1 c6Session "w" (by decide)
    (by decide)).1

/-!
## C10 — tokens_generated counts only sampled tokens
-/

/-- A successful step appends exactly one (sampled) token to the
history, whatever the input length: prompt token-ids are never appended. -/
theorem process_tokens_token_growth {L : Type} (caps : GenCaps L) (m : QwenModel)
    (input : List Nat) (s : String) (m' : QwenModel)
    (h : process_tokens caps m input = .ok (s, m')) :
    m'.tokens.length = m.tokens.length + 1 := by
  unfold process_tokens at h
  obtain ⟨lg, hlg, h⟩ := exceptBind_ok h
  obtain ⟨lg2, hlg2, h⟩ := exceptBind_ok h
  obtain ⟨⟨tok, lp⟩, hs, h⟩ := exceptBind_ok h
  obtain ⟨txt, htxt, h⟩ := exceptBind_ok h
  simp only [Pure.pure, Except.pure, Except.ok.injEq, Prod.mk.injEq] at h
  rw [← h.2]
  simp

/-- A successful decode loop run of `fuel` budget performs some number
`k ≤ fuel` of steps, each appending exactly one token. -/
theorem decode_loop_token_growth {L : Type} (caps : GenCaps L) (startI : Nat) :
    ∀ (fuel perfIdx : Nat) (m : QwenModel) (acc acc' : String)
      (m' : QwenModel) (idx' : Nat),
      decode_loop caps startI fuel perfIdx m acc = .ok (acc', m', idx') →
      ∃ k ≤ fuel, m'.tokens.length = m.tokens.length + k := by
  intro fuel
  induction fuel with
  | zero =>
    intro perfIdx m acc acc' m' idx' h
    simp only [decode_loop, Pure.pure, Except.pure, Except.ok.injEq,
               Prod.mk.injEq] at h
    exact ⟨0, le_refl 0, by rw [← h.2.1]; omega⟩
  | succ fuel ih =>
    intro perfIdx m acc acc' m' idx' h
    rw [decode_loop] at h
    by_cases heos : m.tokens.getLast? = some m.eosToken
    · simp only [if_pos heos, Pure.pure, Except.pure, Except.ok.injEq,
                 Prod.mk.injEq] at h
      exact ⟨0, Nat.zero_le _, by rw [← h.2.1]; omega⟩
    · by_cases hbud : instructionCeiling < caps.perf perfIdx - startI
      · simp only [if_neg heos, hbud, if_true, ite_true, Pure.pure, Except.pure,
                   Except.ok.injEq, Prod.mk.injEq] at h
        exact ⟨0, Nat.zero_le _, by rw [← h.2.1]; omega⟩
      · simp only [if_neg heos, hbud, if_false, ite_false] at h
        cases hlast : m.tokens.getLast? with
        | none => rw [hlast] at h; exact Except.noConfusion h
        | some lt =>
          rw [hlast] at h
          dsimp only at h
          obtain ⟨⟨txt, m1⟩, hpt, h⟩ := exceptBind_ok h
          have h1 := process_tokens_token_growth caps m [lt] txt m1 hpt
          obtain ⟨k, hk, h2⟩ := ih (perfIdx + 1) m1 (acc ++ txt) acc' m' idx' h
          exact ⟨k + 1, by omega, by omega⟩

/-- **C10.** The prompt's encoded token-ids are never appended to the
token history: each step appends exactly one sampled token whatever the
input length, so every successful `generate` call reports
`tokens_generated` = 1 (the priming sample) + the number of decode-loop
iterations executed (some `k ≤ 50`), independent of the prompt length,
and `getModelInfo().currentTokens` equals that same count afterwards. -/
theorem tokens_generated_counts_sampled_only {L : Type} (caps : GenCaps L) :
    (∀ (m : QwenModel) (input : List Nat) (s : String) (m' : QwenModel),
       process_tokens caps m input = .ok (s, m') →
       m'.tokens.length = m.tokens.length + 1) ∧
    (∀ (modelOpt : Option QwenModel) (req : InferenceRequest)
       (resp : InferenceResponse) (m' : QwenModel),
       internal_generate caps modelOpt req = .ok (resp, m') →
       resp.tokensGenerated = m'.tokens.length ∧
       (get_model_info (some m')).currentTokens = resp.tokensGenerated ∧
       ∃ k ≤ 50, resp.tokensGenerated = 1 + k) := by
  refine ⟨fun m input s m' h => process_tokens_token_growth caps m input s m' h, ?_⟩
  intro mo req resp m' h
  unfold internal_generate at h
  cases mo with
  | none => exact Except.noConfusion h
  | some m0 =>
    dsimp only at h
    obtain ⟨tks, henc, h⟩ := exceptBind_ok h
    obtain ⟨⟨ft, m1⟩, hpr, h⟩ := exceptBind_ok h
    dsimp only at h
    obtain ⟨⟨gt, m2, pi⟩, hdl, h⟩ := exceptBind_ok h
    dsimp only at h
    simp only [Pure.pure, Except.pure, Except.ok.injEq, Prod.mk.injEq] at h
    have hg : m1.tokens.length = 1 := by
      simpa using process_tokens_token_growth caps _ tks ft m1 hpr
    obtain ⟨k, hk, h2⟩ :=
      decode_loop_token_growth caps (caps.perf 0) 50 1 m1 ft gt m2 pi hdl
    rw [← h.1, ← h.2]
    refine ⟨rfl, rfl, k, hk, ?_⟩
    show m2.tokens.length = 1 + k
    omega

/-!
## C2 — consolidation equals ascending-id concatenation
-/

/-- Replaying the appends only touches the chunk map. -/
theorem apply_parallel_appends_eq (ins : List (Nat × Bytes)) :
    ∀ st : Storage, apply_parallel_appends ins st =
      { st with bufferMap := insertAllChunks ins st.bufferMap } := by
  induction ins with
  | nil => intro st; rfl
  | cons p ins ih =>
    intro st
    show apply_parallel_appends ins (append_parallel_chunk p.1 p.2 st) = _
    rw [ih]
    rfl

/-- Lookup in the map built by a replay of inserts, with an arbitrary
start map. -/
theorem lookup_insertAllChunks (i : Nat) :
    ∀ (ins : List (Nat × Bytes)) (m : ChunkMap),
      (insertAllChunks ins m).lookup i =
        ins.foldl (fun acc p => if p.1 = i then some p.2 else acc) (m.lookup i) := by
  intro ins
  induction ins with
  | nil => intro m; rfl
  | cons p ins ih =>
    intro m
    show (insertAllChunks ins (m.insert p.1 p.2)).lookup i = _
    rw [ih]
    rw [List.foldl_cons]
    congr 1
    by_cases hp : p.1 = i
    · subst hp; simp [AList.lookup_insert]
    · rw [if_neg hp, AList.lookup_insert_ne (fun hh => hp hh.symm)]

/-- The accumulator-threaded fold equals last-write-wins (`writes`). -/
theorem foldl_writes (i : Nat) :
    ∀ (ins : List (Nat × Bytes)) (o : Option Bytes),
      ins.foldl (fun acc p => if p.1 = i then some p.2 else acc) o =
        (writes ins i).elim o some := by
  intro ins
  induction ins with
  | nil => intro o; rfl
  | cons p ins ih =>
    intro o
    rw [List.foldl_cons, ih]
    have hr : writes (p :: ins) i =
        (writes ins i).elim (if p.1 = i then some p.2 else none) some := by
      show ins.foldl _ (if p.1 = i then some p.2 else none) = _
      rw [ih]
    rw [hr]
    cases writes ins i with
    | none => by_cases hp : p.1 = i <;> simp [hp]
    | some v => simp

/-- A nodup key list with membership `[0, N)` sorts to `range N`. -/
theorem sortKeys_eq_range (m : ChunkMap) (N : Nat)
    (hmem : ∀ i, i ∈ m.keys ↔ i < N) :
    List.insertionSort (· ≤ ·) m.keys = List.range N := by
  have hperm : List.Perm m.keys (List.range N) := by
    refine (List.perm_ext_iff_of_nodup (AList.keys_nodup m) (List.nodup_range N)).mpr ?_
    intro a
    rw [List.mem_range]
    exact hmem a
  exact List.eq_of_perm_of_sorted
    ((List.perm_insertionSort (· ≤ ·) m.keys).trans hperm)
    (List.sorted_insertionSort (· ≤ ·) m.keys)
    (List.sorted_le_range N)

/-- Evaluating the drain fold when the sorted ids are exactly `range N`
and every lookup hits. -/
theorem consolidateCollect_eval (m : ChunkMap) (N : Nat) (chunk : Nat → Bytes)
    (hsort : List.insertionSort (· ≤ ·) m.keys = List.range N)
    (hlook : ∀ i, i < N → m.lookup i = some (chunk i)) :
    consolidateCollect m = (id_order_concat N chunk, (id_order_concat N chunk).length) := by
  unfold consolidateCollect
  rw [hsort]
  suffices h : ∀ (l : List Nat) (acc : Bytes) (t : Nat),
      (∀ i ∈ l, m.lookup i = some (chunk i)) →
      l.foldl (fun acc i => match m.lookup i with
        | some c => (acc.1 ++ c, acc.2 + c.length)
        | none => acc) (acc, t)
        = (acc ++ (l.map chunk).flatten, t + ((l.map chunk).flatten).length) by
    simpa [id_order_concat] using
      h (List.range N) [] 0 (fun i hi => hlook i (List.mem_range.mp hi))
  intro l
  induction l with
  | nil => intro acc t _; simp
  | cons a l ih =>
    intro acc t hl
    rw [List.foldl_cons, hl a (List.mem_cons_self a l),
        ih (acc ++ chunk a) (t + (chunk a).length)
          (fun i hi => hl i (List.mem_cons_of_mem a hi))]
    simp [List.append_assoc, Nat.add_assoc]

/-- **C2 (amended).** For every N ≥ 1 and every insertion sequence
(permutation, retries and out-of-order appends included) whose
last-write-wins content covers exactly the ids `0..N-1` with a non-empty
total concatenation, `consolidateParallel()` succeeds, replaces the
buffer with the chunks' bytes concatenated in ascending chunk-id order —
byte-identical to appending them sequentially in id order — and returns
the total byte count. (The all-zero-length edge case fails instead; see
the counterexample.) -/
theorem consolidate_parallel_id_order (N : Nat) (hN : 1 ≤ N)
    (ins : List (Nat × Bytes)) (chunk : Nat → Bytes) (st : Storage)
    (hmap : st.bufferMap = ∅)
    (hW : ∀ i, writes ins i = if i < N then some (chunk i) else none)
    (hnz : id_order_concat N chunk ≠ []) :
    consolidate_parallel_chunks (apply_parallel_appends ins st) =
      (.ok (id_order_concat N chunk).length,
       { st with buffer := id_order_concat N chunk, bufferMap := ∅ }) ∧
    ((List.range N).foldl (fun s i => append_chunk (chunk i) s) (clear_buffer st)).buffer
      = id_order_concat N chunk := by
  have hlook : ∀ i, (insertAllChunks ins st.bufferMap).lookup i
      = if i < N then some (chunk i) else none := by
    intro i
    rw [hmap, lookup_insertAllChunks, AList.lookup_empty, foldl_writes]
    have he : (writes ins i).elim (none : Option Bytes) some = writes ins i := by
      cases writes ins i <;> rfl
    rw [he, hW i]
  have hmem : ∀ i, i ∈ (insertAllChunks ins st.bufferMap).keys ↔ i < N := by
    intro i
    rw [← AList.mem_keys, ← AList.lookup_isSome, hlook i]
    by_cases hi : i < N <;> simp [hi]
  have hsort := sortKeys_eq_range _ N hmem
  have hcoll := consolidateCollect_eval _ N chunk hsort
    (fun i hi => by rw [hlook i, if_pos hi])
  constructor
  · rw [apply_parallel_appends_eq]
    have h0 : (0 : Nat) ∈ (insertAllChunks ins st.bufferMap).keys :=
      (hmem 0).mpr (by omega)
    have hke : (insertAllChunks ins st.bufferMap).keys.isEmpty = false := by
      cases hk : (insertAllChunks ins st.bufferMap).keys with
      | nil => rw [hk] at h0; cases h0
      | cons a l => rfl
    have hde : (id_order_concat N chunk).isEmpty = false := by
      cases hd : id_order_concat N chunk with
      | nil => exact absurd hd hnz
      | cons a l => rfl
    unfold consolidate_parallel_chunks
    dsimp only
    rw [hke, hcoll]
    dsimp only
    rw [hde]
    rfl
  · suffices h : ∀ (l : List Nat) (s' : Storage),
        (l.foldl (fun s i => append_chunk (chunk i) s) s').buffer
          = s'.buffer ++ (l.map chunk).flatten by
      simpa [clear_buffer, id_order_concat] using h (List.range N) (clear_buffer st)
    intro l
    induction l with
    | nil => intro s'; simp
    | cons a l ih =>
      intro s'
      rw [List.foldl_cons, ih]
      simp [append_chunk, List.append_assoc]

/-- Witness for C2 (amended): N = 2 with chunk 1 = `[20]` sent before
chunk 0 = `[10, 11]`; consolidation yields `[10, 11, 20]` — id order,
not insertion order — and total 3. -/
theorem consolidate_parallel_id_order_witness :
    consolidate_parallel_chunks (apply_parallel_appends c2Inserts emptyStorage) =
      (.ok (id_order_concat 2 c2Chunk).length,
       { emptyStorage with
           buffer := id_order_concat 2 c2Chunk,
           bufferMap := ∅ }) ∧
    ((List.range 2).foldl (fun s i => append_chunk (c2Chunk i) s)
        (clear_buffer emptyStorage)).buffer
      = id_order_concat 2 c2Chunk :=
  consolidate_parallel_id_order 2 (by decide) c2Inserts c2Chunk emptyStorage rfl
    (by
      intro i
      match i with
      | 0 => decide
      | 1 => decide
      | n + 2 =>
        simp [writes, c2Inserts, Nat.succ_ne_zero])
    (by decide)

/-!
## C3 — failure modes of consolidation and parallel commit
-/

theorem consolidateCollect_empty_keys (m : ChunkMap) (h : m.keys = []) :
    consolidateCollect m = ([], 0) := by
  unfold consolidateCollect
  rw [h]
  rfl

/-- The parallel-commit drain produces the same bytes as the
consolidation drain. -/
theorem saveParallelCollect_eq (m : ChunkMap) :
    saveParallelCollect m = (consolidateCollect m).1 := by
  unfold saveParallelCollect consolidateCollect
  suffices h : ∀ (l : List Nat) (acc : Bytes) (t : Nat),
      l.foldl (fun acc i => match m.lookup i with
        | some c => acc ++ c
        | none => acc) acc
        = (l.foldl (fun acc i => match m.lookup i with
            | some c => (acc.1 ++ c, acc.2 + c.length)
            | none => acc) (acc, t)).1 from
    h (List.insertionSort (· ≤ ·) m.keys) [] 0
  intro l
  induction l with
  | nil => intro acc t; rfl
  | cons a l ih =>
    intro acc t
    rw [List.foldl_cons, List.foldl_cons]
    cases m.lookup a with
    | none => exact ih acc t
    | some c => exact ih (acc ++ c) (t + c.length)

/-- **C3 (amended).** `consolidateParallel()` and `commitParallel(key)`
fail with the EmptyUpload error exactly when the drained data is empty
(the ChunkMap is empty, or holds only zero-length chunks). On failure the
UploadBuffer and the Byte-Blob Store always equal their prior contents,
and an empty ChunkMap is left untouched — but a non-empty ChunkMap
holding only zero-length chunks is cleared by the failing call (see the
counterexample), so "leave all inputs unchanged" does not extend to the
ChunkMap. -/
theorem consolidate_commit_failure_state (st : Storage) (key : String) :
    (st.bufferMap.keys = [] →
       consolidate_parallel_chunks st = (.error "No parallel chunks to consolidate", st) ∧
       save_parallel_to_stable key st =
         (.error ("No parallel chunks to save for key: " ++ key), st)) ∧
    ((∃ e, (consolidate_parallel_chunks st).1 = .error e) ↔
       (consolidateCollect st.bufferMap).1 = []) ∧
    ((∃ e, (save_parallel_to_stable key st).1 = .error e) ↔
       (consolidateCollect st.bufferMap).1 = []) ∧
    (∀ e, (consolidate_parallel_chunks st).1 = .error e →
       (consolidate_parallel_chunks st).2.buffer = st.buffer ∧
       (consolidate_parallel_chunks st).2.registries = st.registries) ∧
    (∀ e, (save_parallel_to_stable key st).1 = .error e →
       (save_parallel_to_stable key st).2.buffer = st.buffer ∧
       (save_parallel_to_stable key st).2.registries = st.registries) := by
  by_cases hk : st.bufferMap.keys.isEmpty = true
  · have hk' : st.bufferMap.keys = [] := by simpa [List.isEmpty_iff] using hk
    have hc : consolidate_parallel_chunks st
        = (.error "No parallel chunks to consolidate", st) := by
      unfold consolidate_parallel_chunks
      rw [if_pos hk]
    have hs : save_parallel_to_stable key st
        = (.error ("No parallel chunks to save for key: " ++ key), st) := by
      unfold save_parallel_to_stable
      rw [if_pos hk]
    have hcol : (consolidateCollect st.bufferMap).1 = [] := by
      rw [consolidateCollect_empty_keys st.bufferMap hk']
    refine ⟨fun _ => ⟨hc, hs⟩, ?_, ?_, ?_, ?_⟩
    · rw [hc]; simp [hcol]
    · rw [hs]; simp [hcol]
    · intro e _; rw [hc]; exact ⟨rfl, rfl⟩
    · intro e _; rw [hs]; exact ⟨rfl, rfl⟩
  · have hk' : ¬ st.bufferMap.keys = [] := by
      intro h
      exact hk (by simp [h])
    by_cases hd : (consolidateCollect st.bufferMap).1.isEmpty = true
    · have hd' : (consolidateCollect st.bufferMap).1 = [] := by
        simpa [List.isEmpty_iff] using hd
      have hsd : (saveParallelCollect st.bufferMap).isEmpty = true := by
        rw [saveParallelCollect_eq]; exact hd
      have hc : consolidate_parallel_chunks st
          = (.error "No parallel chunks to consolidate",
             { st with bufferMap := ∅ }) := by
        unfold consolidate_parallel_chunks
        rw [if_neg hk]
        dsimp only
        rw [if_pos hd]
      have hs : save_parallel_to_stable key st
          = (.error ("No parallel chunks to save for key: " ++ key),
             { st with bufferMap := ∅ }) := by
        unfold save_parallel_to_stable
        rw [if_neg hk]
        dsimp only
        rw [if_pos hsd]
      refine ⟨fun h => absurd h hk', ?_, ?_, ?_, ?_⟩
      · rw [hc]; simp [hd']
      · rw [hs]; simp [hd']
      · intro e _; rw [hc]; exact ⟨rfl, rfl⟩
      · intro e _; rw [hs]; exact ⟨rfl, rfl⟩
    · have hd' : ¬ (consolidateCollect st.bufferMap).1 = [] := by
        intro h
        exact hd (by simp [h])
      have hsd : ¬ (saveParallelCollect st.bufferMap).isEmpty = true := by
        rw [saveParallelCollect_eq]; exact hd
      have hc : consolidate_parallel_chunks st
          = (.ok (consolidateCollect st.bufferMap).2,
             { st with
                 bufferMap := ∅,
                 buffer := (consolidateCollect st.bufferMap).1 }) := by
        unfold consolidate_parallel_chunks
        rw [if_neg hk]
        dsimp only
        rw [if_neg hd]
      have hs : save_parallel_to_stable key st
          = (.ok (saveParallelCollect st.bufferMap).length,
             { st with
                 bufferMap := ∅,
                 registries := regInsert key (saveParallelCollect st.bufferMap)
                   st.registries }) := by
        unfold save_parallel_to_stable
        rw [if_neg hk]
        dsimp only
        rw [if_neg hsd]
      refine ⟨fun h => absurd h hk', ?_, ?_, ?_, ?_⟩
      · rw [hc]
        simp [hd']
      · rw [hs]
        simp [hd']
      · intro e he
        rw [hc] at he
        exact absurd he (by simp)
      · intro e he
        rw [hs] at he
        exact absurd he (by simp)

/-- Witness for C3 (amended) at `c3State` (one zero-length chunk): the
failing call keeps the buffer and registry intact, and the
failure-iff-empty-data equivalence holds. -/
theorem consolidate_commit_failure_witness :
    ((∃ e, (consolidate_parallel_chunks c3State).1 = .error e) ↔
       (consolidateCollect c3State.bufferMap).1 = []) ∧
    (consolidate_parallel_chunks c3State).2.buffer = c3State.buffer ∧
    (consolidate_parallel_chunks c3State).2.registries = c3State.registries :=
  ⟨(consolidate_commit_failure_state c3State "k").2.1,
   ((consolidate_commit_failure_state c3State "k").2.2.2.1
     "No parallel chunks to consolidate" rfl).1,
   ((consolidate_commit_failure_state c3State "k").2.2.2.1
     "No parallel chunks to consolidate" rfl).2⟩

end ICLlm
